import Mathlib

/-!
Verification of the ANDES model/equation/power-flow core.

This file gives a shallow embedding, in Lean 4, of the parts of
andes/core/model.py and andes/routines/powerflow.py that the
specification claims speak about, and proves or refutes each claim
against that embedding.  Machine floats are modelled by rationals,
Python lists and numpy arrays by Lean lists, Python dictionaries by
association lists, and raised exceptions by Option or explicit error
components of return values.
-/

namespace Andes

/-! ### Shared association-list helpers (Python dict semantics) -/

/-- Dictionary read: first matching key wins (keys are unique in a dict). -/
def dictGet {α : Type} : List (String × α) → String → Option α
  | [], _ => none
  | (k0, v0) :: rest, k => if k0 = k then some v0 else dictGet rest k

/-- Dictionary write with overwrite-in-place semantics of a Python dict:
if the key is present its value is replaced, otherwise the pair is appended. -/
def dictSetNat : List (Nat × Nat) → Nat → Nat → List (Nat × Nat)
  | [], k, v => [(k, v)]
  | (k0, v0) :: rest, k, v =>
    if k0 = k then (k, v) :: rest else (k0, v0) :: dictSetNat rest k v

/-- Dictionary read for Nat keys. -/
def dictGetNat : List (Nat × Nat) → Nat → Option Nat
  | [], _ => none
  | (k0, v0) :: rest, k => if k0 = k then some v0 else dictGetNat rest k

/-! ### Power-flow solver (andes/routines/powerflow.py)

The routine table at module level of powerflow.py maps method names to
routine function names; the entry point `run` replaces an unrecognized
method by the default before dispatching. -/

/-- The `solvers` dictionary of powerflow.py. -/
def solvers : List (String × String) :=
  [("NR", "newton"), ("Newton", "newton"),
   ("FDPF", "fdpf"), ("FDBX", "fdpf"), ("FDXB", "fdpf")]

/-- The method-resolution fragment of `run`:
if the configured method is not a key of `solvers` it is rewritten to "NR";
the routine dispatched is then the value of the (possibly rewritten) method.
Returns the pair (method after rewrite, dispatched routine name). -/
def run_method (method : String) : String × String :=
  let m := if (dictGet solvers method).isNone then "NR" else method
  match dictGet solvers m with
  | some f => (m, f)
  | none => (m, "newton")

/-- Solver outcome of the Newton loop.  `exhausted` is an artifact of the
embedding: it is returned only when the abstract mismatch sequence runs out,
which has no counterpart in the unbounded Python `while True` loop. -/
inductive PFOutcome where
  | converged
  | diverged
  | maxIterExceeded
  | exhausted
deriving DecidableEq, Repr

/-- The main loop of `newton` in powerflow.py, abstracted over the sequence
of maximum-absolute-mismatch values produced by successive `calc_inc` calls.
`niter` is the iteration counter before the current iteration; `first` is
the mismatch recorded at iteration 1.  Faithful to the source, each
iteration increments the counter, then tests in order:
convergence (mismatch below tol), divergence (counter above 5 and mismatch
above 1000 times the first mismatch), maximum iterations (counter above
maxit). -/
def newtonLoop (tol first : ℚ) (maxit : ℕ) : ℕ → List ℚ → PFOutcome × ℕ
  | niter, [] => (.exhausted, niter)
  | niter, m :: rest =>
    let k := niter + 1
    if m < tol then (.converged, k)
    else if 5 < k ∧ 1000 * first < m then (.diverged, k)
    else if maxit < k then (.maxIterExceeded, k)
    else newtonLoop tol first maxit k rest

/-- The `newton` routine: the first element of the mismatch sequence plays
the role of the first recorded mismatch. -/
def newton (tol : ℚ) (maxit : ℕ) (mis : List ℚ) : PFOutcome × ℕ :=
  match mis with
  | [] => (.exhausted, 0)
  | m :: _ => newtonLoop tol m maxit 0 mis

/-! ### ModelData device container (andes/core/model.py, ModelData)

A container holds a device count `n`, the idx-to-position dictionary `uid`,
and per-device parameter storage.  `ModelData.add` records
`uid[idx] = n`, increments `n` and appends the supplied value to each
parameter; the embedding tracks one numerical parameter. -/

structure MData where
  n : ℕ
  uid : List (ℕ × ℕ)
  vals : List ℚ
deriving DecidableEq, Repr

def MData.empty : MData := ⟨0, [], []⟩

/-- `ModelData.add`: register the idx at the current position, grow the
device count, append the parameter value. -/
def MData.add (md : MData) (idx : ℕ) (value : ℚ) : MData :=
  { n := md.n + 1,
    uid := dictSetNat md.uid idx md.n,
    vals := md.vals ++ [value] }

/-- Add a list of devices one at a time to an empty container. -/
def addAll (devs : List (ℕ × ℚ)) : MData :=
  devs.foldl (fun md d => md.add d.1 d.2) MData.empty

/-- `Model.idx2uid` for a single idx: a dictionary lookup in `uid`.
A missing key raises KeyError in Python, embedded as `none`. -/
def idx2uid (md : MData) (idx : ℕ) : Option ℕ := dictGetNat md.uid idx

/-- `Model.get` for a single idx on the tracked parameter: read the stored
value at position `idx2uid idx`. -/
def MData.get (md : MData) (idx : ℕ) : Option ℚ :=
  match idx2uid md idx with
  | none => none
  | some u => md.vals[u]?

/-! ### Sparse-pattern storage (Model.store_sparse_pattern)

A generated triplet names its Jacobian block, its equation (row) name and
variable (column) name; the stored entry pairs the global row-address and
column-address arrays of those names with a per-device value array.
The source raises ValueError when the two address arrays have different
lengths; the embedding records the offending pair of names in the error
component and appends nothing further. -/

structure SpTriplet where
  jname : String
  rowName : String
  colName : String
  val : ℚ
deriving DecidableEq, Repr

/-- The value array stored with an entry: constant blocks (block name whose
last character is c) store val * ones(n), variable blocks store zeros(n). -/
def tripletValue (n : ℕ) (t : SpTriplet) : List ℚ :=
  if t.jname.data.getLast? = some 'c' then List.replicate n t.val
  else List.replicate n 0

/-- The per-triplet loop of `store_sparse_pattern`: look up the row and
column address arrays, raise on a length mismatch, append otherwise. -/
def storeLoop (n : ℕ) (addr : String → List ℕ) :
    List SpTriplet → List (List ℕ × List ℕ × List ℚ) × Option (String × String)
  | [] => ([], none)
  | t :: rest =>
    let ri := addr t.rowName
    let ci := addr t.colName
    if ri.length = ci.length then
      let out := storeLoop n addr rest
      ((ri, ci, tripletValue n t) :: out.1, out.2)
    else
      ([], some (t.rowName, t.colName))

/-- The state of a model relevant to `store_sparse_pattern`. -/
structure SPModel where
  n : ℕ
  in_use : Bool
  address : Bool
  trips : List SpTriplet
  addr : String → List ℕ

/-- `Model.store_sparse_pattern`: the triplet store is cleared first; the
function returns immediately after the clear when the model has no devices
(the source comments: do not check in_use here) or when addresses have not
been assigned; otherwise every generated triplet is re-addressed and
appended. -/
def store_sparse_pattern (m : SPModel) :
    List (List ℕ × List ℕ × List ℚ) × Option (String × String) :=
  if m.n = 0 then ([], none)
  else if m.address = false then ([], none)
  else storeLoop m.n m.addr m.trips

/-- A concrete device-holding model marked not in use, with one triplet
whose address arrays match: used to decide claim C6. -/
def spNotInUse : SPModel :=
  { n := 1, in_use := false, address := true,
    trips := [⟨"fx", "x1", "x1", 0⟩],
    addr := fun _ => [0] }

/-! ### Sequential initialization (Model.init)

The sequential pass walks variables in declaration order.  A variable with
no closed-form initializer is skipped.  Otherwise the compiled initializer
is evaluated on the current inputs; a numeric evaluation failure
(a ValueError in the source) is swallowed and the variable keeps its
current value.  The per-device dimension is dropped: each variable holds
one rational value, and an initializer is a function of the current value
vector that may fail. -/

structure IVar where
  prior : ℚ
  initf : Option (List ℚ → Option ℚ)

instance : Inhabited IVar := ⟨⟨0, none⟩⟩

/-- One step of the sequential pass on variable `i`: skip when there is no
initializer, keep the current value when evaluation fails, assign the
result otherwise. -/
def initStep (vars : List IVar) (vals : List ℚ) (i : ℕ) : List ℚ :=
  match (vars.getD i default).initf with
  | none => vals
  | some f =>
    match f vals with
    | none => vals
    | some x => vals.set i x

/-- The value vector after the first `k` steps of the sequential pass,
starting from the prior (pre-initialization) values. -/
def stateAt (vars : List IVar) (k : ℕ) : List ℚ :=
  (List.range k).foldl (initStep vars) (vars.map IVar.prior)

/-- `Model.init` (restricted to the sequential stage, with the nr_iter flag
False and a trivial custom hook): run the pass over all variables in
declaration order and set the initialized flag.  The function is total:
no exception propagates to the caller. -/
def model_init (vars : List IVar) : List ℚ × Bool :=
  (stateAt vars vars.length, true)

/-! ### Service resolution (Model.s_update)

A computed service value is either a scalar or a per-device array; after
evaluation, a value that is not an array is multiplied by ones(n), turning
it into an array of n copies. -/

inductive NumVal where
  | scalar : ℚ → NumVal
  | arr : List ℚ → NumVal
deriving DecidableEq, Repr

/-- The broadcast step of `s_update`: v = v * ones(n) when v is not
already an array. -/
def broadcastValue (n : ℕ) : NumVal → NumVal
  | .scalar c => .arr (List.replicate n c)
  | .arr l => .arr l

/-- `Model.s_update` restricted to expression-defined services: the
function returns immediately when the model has no devices or is not in
use; otherwise each service value is the evaluation result of its compiled
expression, broadcast to the device count when scalar. -/
def s_update (n : ℕ) (inUse : Bool) (old computed : List NumVal) :
    List NumVal :=
  if n = 0 ∨ inUse = false then old
  else computed.map (broadcastValue n)

/-! ### Parameter altering (Model.alter and Model.set)

A numerical parameter carries the raw input values vin, the per-unit
conversion coefficients pu_coeff and the working values v.  `alter` writes
the new raw value at position idx2uid(idx) and then refreshes the whole
working array as vin * pu_coeff. -/

structure NumParamV where
  vin : List ℚ
  pu_coeff : List ℚ
  v : List ℚ
deriving DecidableEq, Repr

/-- A model as seen by `alter`: the idx-to-uid dictionary, the numerical
parameters by name, and the variable value arrays by name (which `alter`
never touches). -/
structure AlterModel where
  uid : List (ℕ × ℕ)
  params : List (String × NumParamV)
  varvals : List (String × List ℚ)
deriving DecidableEq, Repr

/-- `Model.set` on attribute vin followed by the refresh
v[:] = vin * pu_coeff, applied to the parameter named src.  A missing idx
or parameter name raises KeyError in the source, embedded as `none`. -/
def alter (m : AlterModel) (src : String) (idx : ℕ) (value : ℚ) :
    Option AlterModel :=
  match dictGetNat m.uid idx with
  | none => none
  | some u =>
    match dictGet m.params src with
    | none => none
    | some p =>
      let p2 : NumParamV :=
        { vin := p.vin.set u value,
          pu_coeff := p.pu_coeff,
          v := List.zipWith (fun a b => a * b) (p.vin.set u value) p.pu_coeff }
      some { m with
             params := m.params.map
               (fun q => if q.1 = src then (q.1, p2) else q) }

/-! ### Symbol generation (SymProcessor.generate_symbols and
SymProcessor._check_expr_symbols)

A model contributes symbol names from several collections.  The cache
property all_params_names flattens, in order: numerical parameters,
expression services, external services, operational services, and the
flag names exported by discrete components.  generate_symbols inserts
into inputs_dict, in order: all_params_names, all variable names
(states, external states, algebraic variables, external algebraic
variables), the config keys, and finally dae_t; symbols visible in
equation strings are exactly the keys of inputs_dict. -/

structure SymModel where
  num_param_names : List String
  service_names : List String
  service_ext_names : List String
  service_ops_names : List String
  discrete_flag_names : List String
  var_names : List String
  config_keys : List String

/-- cache.all_params_names of a model. -/
def all_params_names (m : SymModel) : List String :=
  m.num_param_names ++ m.service_names ++ m.service_ext_names ++
    m.service_ops_names ++ m.discrete_flag_names

/-- The keys of inputs_dict built by generate_symbols; membership in this
list is what makes a name visible to equation strings. -/
def generate_symbols_keys (m : SymModel) : List String :=
  all_params_names m ++ m.var_names ++ m.config_keys ++ ["dae_t"]

/-- The symbol set claimed by the specification: the union of all
parameter names, all variable names, all service names, all config option
names, and dae_t (no discrete flag names). -/
def claimed_keys (m : SymModel) : List String :=
  m.num_param_names ++ m.service_names ++ m.service_ext_names ++
    m.service_ops_names ++ m.var_names ++ m.config_keys ++ ["dae_t"]

/-- `SymProcessor._check_expr_symbols`: walk the free symbols of a parsed
expression and raise a ValueError naming the expression and the offending
symbol if one is not a known input symbol. -/
def check_expr_symbols (m : SymModel) (ename : String)
    (free : List String) : Except (String × String) Unit :=
  match free.find? (fun s => decide (s ∉ generate_symbols_keys m)) with
  | some s => Except.error (ename, s)
  | none => Except.ok ()

/-- A model whose discrete component exports one flag name: used to decide
claim C1. -/
def c1disc : SymModel :=
  { num_param_names := ["u"], service_names := [], service_ext_names := [],
    service_ops_names := [], discrete_flag_names := ["lim_zi"],
    var_names := ["v1"], config_keys := [] }

/-! ### Symbolic Jacobian generation (SymProcessor.generate_jacobians)

Equation strings are parsed by sympy into expression trees whose
constructors simplify away zero summands and zero/one factors, so that a
derivative that vanishes identically is represented by the zero
expression; the sparse Jacobian only keeps entries that are not the zero
expression.  The embedding uses a small expression language with the same
zero/one simplification in its smart constructors and a recursive partial
derivative; an entry is structurally nonzero when its derivative is not
the constant zero. -/

inductive Expr where
  | const : ℚ → Expr
  | sym : String → Expr
  | add : Expr → Expr → Expr
  | mul : Expr → Expr → Expr
deriving DecidableEq, Repr

/-- Sum with automatic removal of zero summands. -/
def eadd (a b : Expr) : Expr :=
  if a = Expr.const 0 then b
  else if b = Expr.const 0 then a
  else Expr.add a b

/-- Product with automatic absorption of zero and removal of one factors. -/
def emul (a b : Expr) : Expr :=
  if a = Expr.const 0 ∨ b = Expr.const 0 then Expr.const 0
  else if a = Expr.const 1 then b
  else if b = Expr.const 1 then a
  else Expr.mul a b

/-- Symbolic partial derivative with respect to a variable name. -/
def ediff : Expr → String → Expr
  | .const _, _ => .const 0
  | .sym s, v => if s = v then .const 1 else .const 0
  | .add a b, v => eadd (ediff a v) (ediff b v)
  | .mul a b, v => eadd (emul (ediff a v) b) (emul a (ediff b v))

/-- The symbolic state of a model entering generate_jacobians: the
differential equations are indexed like the states (and external states),
the algebraic equations like the algebraic variables (internal and
external); a variable without an equation string contributes the zero
expression.  algebs_int lists the internal algebraic variables with their
diag_eps values. -/
structure JacModel where
  states : List String
  algebs : List String
  f_eqs : List Expr
  g_eqs : List Expr
  algebs_int : List (String × ℚ)

/-- vars_syms_list: the full variable order, states then algebraic. -/
def JacModel.vars (jm : JacModel) : List String := jm.states ++ jm.algebs

/-- One block of generate_jacobians: enumerate the structurally nonzero
entries of the jacobian of eqs with respect to the full variable list and
append triplets (block name, equation index, variable index); the block
name is the equation code followed by the variable code (x for a state
column, y for an algebraic column). -/
def blockTriplets (eqs : List Expr) (vars : List String) (ecode : String)
    (nStates : ℕ) : List (String × ℕ × ℕ) :=
  (List.range eqs.length).flatMap (fun e =>
    (List.range vars.length).filterMap (fun v =>
      if ediff (eqs.getD e (Expr.const 0)) (vars.getD v "") = Expr.const 0
      then none
      else some (ecode ++ (if v < nStates then "x" else "y"), e, v)))

/-- The diag_eps loop of generate_jacobians: every internal algebraic
variable with a nonzero diag_eps contributes one entry to gyc at its own
diagonal position, bypassing differentiation. -/
def diagTriplets (jm : JacModel) : List (String × ℕ × ℕ) :=
  jm.algebs_int.filterMap (fun p =>
    if p.2 = 0 then none
    else some ("gyc", jm.algebs.indexOf p.1, (JacModel.vars jm).indexOf p.1))

/-- generate_jacobians: the (block, row, col) triplets appended through
append_ijv, first from df, then from dg, then the diag_eps entries. -/
def generate_jacobians (jm : JacModel) : List (String × ℕ × ℕ) :=
  blockTriplets jm.f_eqs (JacModel.vars jm) "f" jm.states.length ++
    blockTriplets jm.g_eqs (JacModel.vars jm) "g" jm.states.length ++
    diagTriplets jm

/-- A one-state, one-algebraic model: the differential residual is y1, the
algebraic residual is x1 * y1, and y1 carries diag_eps 1. -/
def c2jm : JacModel :=
  { states := ["x1"],
    algebs := ["y1"],
    f_eqs := [Expr.sym "y1"],
    g_eqs := [Expr.mul (Expr.sym "x1") (Expr.sym "y1")],
    algebs_int := [("y1", 1)] }

/-! ### Concrete instances used by witnesses -/

/-- Two variables: the first initializer always fails numerically, the
second always evaluates to 5. -/
def c7vars : List IVar :=
  [⟨1, some (fun _ => none)⟩, ⟨2, some (fun _ => some 5)⟩]

/-- A model with two devices (idx 7 and 8) and two numerical parameters. -/
def c10m : AlterModel :=
  { uid := [(7, 0), (8, 1)],
    params := [("R", ⟨[1, 2], [10, 10], [10, 20]⟩),
               ("X", ⟨[4], [1], [4]⟩)],
    varvals := [("va", [1])] }

/-- The model after alter("R", idx 8, value 3): the raw input at position 1
becomes 3 and the whole working array is refreshed as vin * pu_coeff. -/
def c10after : AlterModel :=
  { uid := [(7, 0), (8, 1)],
    params := [("R", ⟨[1, 3], [10, 10], [10, 30]⟩),
               ("X", ⟨[4], [1], [4]⟩)],
    varvals := [("va", [1])] }

end Andes

namespace Andes

theorem dictGetNat_set (d : List (ℕ × ℕ)) (k v k2 : ℕ) :
    dictGetNat (dictSetNat d k v) k2 =
      if k = k2 then some v else dictGetNat d k2 := by
  induction d with
  | nil =>
    by_cases h : k = k2 <;> simp [dictSetNat, dictGetNat, h]
  | cons hd tl ih =>
    obtain ⟨k0, v0⟩ := hd
    by_cases h0 : k0 = k
    · subst h0
      by_cases h : k0 = k2 <;> simp [dictSetNat, dictGetNat, h]
    · by_cases h : k0 = k2
      · subst h
        have : ¬ k = k0 := fun hc => h0 hc.symm
        simp [dictSetNat, dictGetNat, h0, this]
      · simp [dictSetNat, dictGetNat, h0, h, ih]

theorem foldl_add_n (devs : List (ℕ × ℚ)) (md : MData) :
    (devs.foldl (fun m d => m.add d.1 d.2) md).n = md.n + devs.length := by
  induction devs generalizing md with
  | nil => simp
  | cons hd tl ih =>
    rw [List.foldl_cons, ih]
    simp only [MData.add, List.length_cons]
    omega

theorem foldl_add_vals (devs : List (ℕ × ℚ)) (md : MData) :
    (devs.foldl (fun m d => m.add d.1 d.2) md).vals =
      md.vals ++ devs.map Prod.snd := by
  induction devs generalizing md with
  | nil => simp
  | cons hd tl ih =>
    rw [List.foldl_cons, ih]
    simp [MData.add, List.append_assoc]

theorem foldl_add_uid_notmem (devs : List (ℕ × ℚ)) (md : MData) (k : ℕ)
    (hk : k ∉ devs.map Prod.fst) :
    dictGetNat (devs.foldl (fun m d => m.add d.1 d.2) md).uid k =
      dictGetNat md.uid k := by
  induction devs generalizing md with
  | nil => rfl
  | cons hd tl ih =>
    simp only [List.map_cons, List.mem_cons, not_or] at hk
    have h1 : ¬ hd.1 = k := fun hc => hk.1 hc.symm
    simp only [List.foldl_cons]
    rw [ih _ hk.2]
    simp [MData.add, dictGetNat_set, h1]

theorem addAll_uid_char (devs : List (ℕ × ℚ))
    (hnd : (devs.map Prod.fst).Nodup) (k p : ℕ) :
    idx2uid (addAll devs) k = some p ↔
      (devs.map Prod.fst)[p]? = some k := by
  induction devs using List.reverseRecOn with
  | nil =>
    simp [addAll, idx2uid, MData.empty, dictGetNat]
  | append_singleton devs d ih =>
    have hsplit : (devs.map Prod.fst).Nodup ∧ d.1 ∉ devs.map Prod.fst := by
      simp only [List.map_append, List.map_cons, List.map_nil,
        List.nodup_append] at hnd
      exact ⟨hnd.1, fun hc => hnd.2.2 hc (by simp)⟩
    have hfold : addAll (devs ++ [d]) = (addAll devs).add d.1 d.2 := by
      simp [addAll, List.foldl_append]
    have hn : (addAll devs).n = devs.length := by
      simpa [MData.empty] using foldl_add_n devs MData.empty
    have hmap : (devs ++ [d]).map Prod.fst = devs.map Prod.fst ++ [d.1] := by
      simp
    by_cases hkd : d.1 = k
    · subst hkd
      have hidx : idx2uid (addAll (devs ++ [d])) d.1 = some devs.length := by
        rw [hfold]
        simp [idx2uid, MData.add, dictGetNat_set, hn]
      rw [hidx, hmap]
      constructor
      · intro h
        have hp : p = devs.length := by
          injection h with h
          omega
        rw [hp]
        have hc := List.getElem?_concat_length (devs.map Prod.fst) d.1
        rw [List.length_map] at hc
        exact hc
      · intro h
        rcases Nat.lt_trichotomy p devs.length with hlt | heq | hgt
        · exfalso
          rw [List.getElem?_append_left (by simpa using hlt)] at h
          have : d.1 ∈ devs.map Prod.fst := List.getElem?_mem h
          exact hsplit.2 this
        · rw [heq]
        · exfalso
          have hlen : p < (devs.map Prod.fst ++ [d.1]).length :=
            (List.getElem?_eq_some_iff.mp h).1
          simp only [List.length_append, List.length_map,
            List.length_cons, List.length_nil] at hlen
          omega
    · have hidx : idx2uid (addAll (devs ++ [d])) k = idx2uid (addAll devs) k := by
        rw [hfold]
        simp only [idx2uid, MData.add, dictGetNat_set, if_neg hkd]
      rw [hidx, hmap, ih hsplit.1]
      constructor
      · intro h
        have hlen : p < (devs.map Prod.fst).length :=
          (List.getElem?_eq_some_iff.mp h).1
        rw [List.getElem?_append_left hlen]
        exact h
      · intro h
        rcases Nat.lt_trichotomy p (devs.map Prod.fst).length with hlt | heq | hgt
        · rw [List.getElem?_append_left hlt] at h
          exact h
        · exfalso
          rw [heq] at h
          have := List.getElem?_concat_length (devs.map Prod.fst) d.1
          rw [this] at h
          injection h with h
          exact hkd h
        · exfalso
          have hlen : p < (devs.map Prod.fst ++ [d.1]).length :=
            (List.getElem?_eq_some_iff.mp h).1
          simp only [List.length_append, List.length_map,
            List.length_cons, List.length_nil] at hlen hgt
          omega

theorem initStep_length (vars : List IVar) (vals : List ℚ) (i : ℕ) :
    (initStep vars vals i).length = vals.length := by
  unfold initStep
  split
  · rfl
  · split
    · rfl
    · exact List.length_set vals i _

theorem stateAt_succ (vars : List IVar) (k : ℕ) :
    stateAt vars (k + 1) = initStep vars (stateAt vars k) k := by
  unfold stateAt
  rw [List.range_succ, List.foldl_append]
  rfl

theorem initStep_getElem_ne (vars : List IVar) (vals : List ℚ) (i j : ℕ)
    (hij : i ≠ j) : (initStep vars vals i)[j]? = vals[j]? := by
  unfold initStep
  split
  · rfl
  · split
    · rfl
    · exact List.getElem?_set_ne hij

theorem stateAt_length (vars : List IVar) (k : ℕ) :
    (stateAt vars k).length = vars.length := by
  induction k with
  | zero => simp [stateAt]
  | succ k ih => rw [stateAt_succ, initStep_length, ih]

theorem stateAt_untouched (vars : List IVar) (k j : ℕ) (hkj : k ≤ j) :
    (stateAt vars k)[j]? = (vars.map IVar.prior)[j]? := by
  induction k with
  | zero => rfl
  | succ k ih =>
    rw [stateAt_succ, initStep_getElem_ne vars _ k j (by omega)]
    exact ih (by omega)

theorem stateAt_stable (vars : List IVar) (k j : ℕ) (hjk : j < k) :
    (stateAt vars k)[j]? = (initStep vars (stateAt vars j) j)[j]? := by
  induction k with
  | zero => omega
  | succ k ih =>
    by_cases hj : j = k
    · rw [hj, stateAt_succ]
    · rw [stateAt_succ, initStep_getElem_ne vars _ k j (fun hc => hj hc.symm)]
      exact ih (by omega)

theorem dictGet_cons {α : Type} (k0 : String) (v0 : α)
    (tl : List (String × α)) (s : String) :
    dictGet ((k0, v0) :: tl) s = if k0 = s then some v0 else dictGet tl s :=
  rfl

theorem map_update_cons {α : Type} (k0 : String) (v0 : α)
    (tl : List (String × α)) (src : String) (p2 : α) :
    ((k0, v0) :: tl).map
        (fun q : String × α => if q.1 = src then (q.1, p2) else q) =
      (if k0 = src then ((k0, p2) : String × α) else (k0, v0)) ::
        tl.map (fun q => if q.1 = src then (q.1, p2) else q) := by
  by_cases h : k0 = src <;> simp [h]

theorem dictGet_map_update {α : Type} (l : List (String × α))
    (src : String) (p2 : α) :
    (∀ s, s ≠ src →
      dictGet (l.map (fun q => if q.1 = src then (q.1, p2) else q)) s =
        dictGet l s) ∧
    ((dictGet l src).isSome →
      dictGet (l.map (fun q => if q.1 = src then (q.1, p2) else q)) src =
        some p2) := by
  induction l with
  | nil => exact ⟨fun s _ => rfl, by intro h; simp [dictGet] at h⟩
  | cons hd tl ih =>
    obtain ⟨k0, v0⟩ := hd
    rw [map_update_cons]
    by_cases h0 : k0 = src
    · rw [if_pos h0]
      constructor
      · intro s hs
        have hks : ¬ k0 = s := fun hc => hs (hc ▸ h0)
        rw [dictGet_cons, dictGet_cons, if_neg hks, if_neg hks]
        exact ih.1 s hs
      · intro hsome
        rw [dictGet_cons, if_pos h0]
    · rw [if_neg h0]
      constructor
      · intro s hs
        rw [dictGet_cons, dictGet_cons]
        by_cases hks : k0 = s
        · rw [if_pos hks, if_pos hks]
        · rw [if_neg hks, if_neg hks]
          exact ih.1 s hs
      · intro hsome
        rw [dictGet_cons] at hsome ⊢
        rw [if_neg h0] at hsome ⊢
        exact ih.2 hsome

end Andes

/-! ## Claims about the power-flow solver -/

/-- C3: in the Newton iteration loop, whenever the loop reaches an iteration
k = niter + 1 with k above 5, whose mismatch m is not below tolerance and
exceeds 1000 times the first-iteration mismatch, the loop stops at that very
iteration with the diverged outcome, for every value of the maximum
iteration count: the divergence branch precedes the maximum-iteration
branch, so the maximum-iteration outcome is unreachable there even when
k also exceeds maxit. -/
theorem C3_newton_diverges_before_maxiter
    (tol first : ℚ) (maxit niter : ℕ) (m : ℚ) (rest : List ℚ)
    (htol : ¬ m < tol) (hk : 5 < niter + 1) (hdiv : 1000 * first < m) :
    Andes.newtonLoop tol first maxit niter (m :: rest) =
      (Andes.PFOutcome.diverged, niter + 1) := by
  unfold Andes.newtonLoop
  simp only [if_neg htol, if_pos (And.intro hk hdiv)]

/-- Witness for C3: a concrete run state at iteration 7 with mismatch 5000,
first mismatch 2 and maxit 3 (so the iteration also exceeds maxit)
stops with the diverged outcome. -/
theorem C3_newton_diverges_before_maxiter_witness :
    Andes.newtonLoop 1 2 3 6 [5000] = (Andes.PFOutcome.diverged, 7) :=
  C3_newton_diverges_before_maxiter 1 2 3 6 5000 []
    (by norm_num) (by norm_num) (by norm_num)

/-- C8: the power-flow entry point rewrites every unrecognized solver-method
name to the default "NR" and dispatches the Newton routine; every
recognized name is dispatched unaltered to its mapped routine. -/
theorem C8_run_method_fallback (m : String) :
    (Andes.dictGet Andes.solvers m = none →
      Andes.run_method m = ("NR", "newton")) ∧
    (∀ f, Andes.dictGet Andes.solvers m = some f →
      Andes.run_method m = (m, f)) := by
  constructor
  · intro h
    unfold Andes.run_method
    rw [h]
    rfl
  · intro f h
    simp [Andes.run_method, h]

/-- Witness for C8: the unrecognized name "GS" is rewritten to "NR" with the
newton routine, while the recognized name "FDXB" dispatches fdpf unaltered. -/
theorem C8_run_method_fallback_witness :
    Andes.run_method "GS" = ("NR", "newton") ∧
    Andes.run_method "FDXB" = ("FDXB", "fdpf") :=
  ⟨(C8_run_method_fallback "GS").1 (by decide),
   (C8_run_method_fallback "FDXB").2 "fdpf" (by decide)⟩

/-! ## Claims about the device container -/

/-- C4: after adding N devices with pairwise-distinct idx values to an empty
container, the idx-to-uid map sends an idx to position p exactly when that
idx was the p-th one added (a bijection between declared idx values and
positions 0..N-1, mapping the i-th added idx to i), and `get` applied to
the i-th added idx returns the value stored at insertion position i. -/
theorem C4_idx2uid_bijection (devs : List (ℕ × ℚ))
    (hnd : (devs.map Prod.fst).Nodup) :
    (∀ k p, Andes.idx2uid (Andes.addAll devs) k = some p ↔
      (devs.map Prod.fst)[p]? = some k) ∧
    (∀ i k v, devs[i]? = some (k, v) →
      Andes.idx2uid (Andes.addAll devs) k = some i ∧
      (Andes.addAll devs).get k = some v) := by
  refine ⟨fun k p => Andes.addAll_uid_char devs hnd k p, ?_⟩
  intro i k v h
  have hk : (devs.map Prod.fst)[i]? = some k := by
    rw [List.getElem?_map, h]
    rfl
  have huid : Andes.idx2uid (Andes.addAll devs) k = some i :=
    (Andes.addAll_uid_char devs hnd k i).mpr hk
  refine ⟨huid, ?_⟩
  have hred : Andes.MData.get (Andes.addAll devs) k =
      (Andes.addAll devs).vals[i]? := by
    unfold Andes.MData.get
    rw [huid]
  have hvals : (Andes.addAll devs).vals = devs.map Prod.snd := by
    simpa [Andes.MData.empty] using Andes.foldl_add_vals devs Andes.MData.empty
  rw [hred, hvals, List.getElem?_map, h]
  rfl

/-- Witness for C4: on the container built from idx values 5, 3, 9, the
second added idx 3 maps to position 1 and lookup by idx 9 returns the
value 7 stored at position 2. -/
theorem C4_idx2uid_bijection_witness :
    Andes.idx2uid (Andes.addAll [(5, 1), (3, 2), (9, 7)]) 3 = some 1 ∧
    (Andes.addAll [(5, (1 : ℚ)), (3, 2), (9, 7)]).get 9 = some 7 := by
  have h := C4_idx2uid_bijection [(5, 1), (3, 2), (9, 7)] (by decide)
  exact ⟨((h.2 1 3 2) rfl).1, ((h.2 2 9 7) rfl).2⟩

/-! ## Claims about sparse-pattern storage -/

/-- C5: within sparse-pattern storage, if every triplet has row-address and
column-address arrays of equal lengths, no error is raised and every
triplet is appended in order; if some triplet has mismatched lengths, the
operation raises (returns an error naming a mismatched pair) rather than
silently dropping the triplet and continuing. -/
theorem C5_mismatch_raises (n : ℕ) (addr : String → List ℕ)
    (ts : List Andes.SpTriplet) :
    ((∀ t ∈ ts, (addr t.rowName).length = (addr t.colName).length) →
      (Andes.storeLoop n addr ts).2 = none ∧
      (Andes.storeLoop n addr ts).1 =
        ts.map (fun t => (addr t.rowName, addr t.colName,
          Andes.tripletValue n t))) ∧
    ((∃ t ∈ ts, (addr t.rowName).length ≠ (addr t.colName).length) →
      ∃ e, (Andes.storeLoop n addr ts).2 = some e) := by
  induction ts with
  | nil =>
    refine ⟨fun _ => ⟨rfl, rfl⟩, ?_⟩
    rintro ⟨t, ht, -⟩
    exact absurd ht (List.not_mem_nil t)
  | cons t rest ih =>
    constructor
    · intro hall
      have hm : (addr t.rowName).length = (addr t.colName).length :=
        hall t (List.mem_cons_self t rest)
      have hrest := ih.1 (fun t2 ht2 => hall t2 (List.mem_cons_of_mem t ht2))
      simp only [Andes.storeLoop, if_pos hm, List.map_cons]
      exact ⟨hrest.1, by rw [hrest.2]⟩
    · rintro ⟨t2, ht2, hne⟩
      by_cases hm : (addr t.rowName).length = (addr t.colName).length
      · rcases List.mem_cons.mp ht2 with heq | hmem
        · exact absurd (heq ▸ hm) hne
        · obtain ⟨e, he⟩ := ih.2 ⟨t2, hmem, hne⟩
          refine ⟨e, ?_⟩
          simp only [Andes.storeLoop, if_pos hm]
          exact he
      · refine ⟨(t.rowName, t.colName), ?_⟩
        simp only [Andes.storeLoop, if_neg hm]

/-- Witness for C5: with unit addresses every triplet of a two-triplet list
is appended without error, and making one column array longer produces an
error. -/
theorem C5_mismatch_raises_witness :
    (Andes.storeLoop 1 (fun _ => [0])
        [⟨"fx", "x1", "x1", 0⟩, ⟨"gy", "y1", "y1", 0⟩]).2 = none ∧
    (∃ e, (Andes.storeLoop 1 (fun s => if s = "y1" then [0, 1] else [0])
        [⟨"fx", "x1", "x1", 0⟩, ⟨"gy", "x1", "y1", 0⟩]).2 = some e) := by
  constructor
  · exact ((C5_mismatch_raises 1 (fun _ => [0])
      [⟨"fx", "x1", "x1", 0⟩, ⟨"gy", "y1", "y1", 0⟩]).1
      (by intro t ht; fin_cases ht <;> rfl)).1
  · exact (C5_mismatch_raises 1 (fun s => if s = "y1" then [0, 1] else [0])
      [⟨"fx", "x1", "x1", 0⟩, ⟨"gy", "x1", "y1", 0⟩]).2
      ⟨⟨"gy", "x1", "y1", 0⟩, by decide⟩

/-- C6 as claimed is false: sparse-pattern assembly is skipped for models
with zero devices, but the source deliberately does not consult in_use
(its comment: do not check in_use here).  A model with one device that is
marked not in use still gets its triplet appended. -/
theorem C6_counterexample :
    Andes.spNotInUse.in_use = false ∧
    (Andes.store_sparse_pattern Andes.spNotInUse).1 ≠ [] := by
  constructor
  · rfl
  · intro h
    have heval : (Andes.store_sparse_pattern Andes.spNotInUse).1 =
        [([0], [0], [0])] := by decide
    rw [heval] at h
    exact absurd h (by simp)

/-- C6 amended: assembly is skipped entirely, leaving the cleared store
empty, exactly for models with zero devices and for models whose addresses
have not been assigned; the in_use flag is deliberately not checked. -/
theorem C6_skip_empty (m : Andes.SPModel)
    (h : m.n = 0 ∨ m.address = false) :
    Andes.store_sparse_pattern m = ([], none) := by
  unfold Andes.store_sparse_pattern
  rcases h with h | h
  · rw [if_pos h]
  · by_cases hn : m.n = 0
    · rw [if_pos hn]
    · rw [if_neg hn, if_pos h]

/-- Witness for C6 amended: a zero-device model and an unaddressed model
both produce the empty store. -/
theorem C6_skip_empty_witness :
    Andes.store_sparse_pattern
      { n := 0, in_use := true, address := true,
        trips := [⟨"fx", "x1", "x1", 0⟩], addr := fun _ => [0] } =
      ([], none) ∧
    Andes.store_sparse_pattern
      { n := 2, in_use := true, address := false,
        trips := [⟨"fx", "x1", "x1", 0⟩], addr := fun _ => [0] } =
      ([], none) :=
  ⟨C6_skip_empty _ (Or.inl rfl), C6_skip_empty _ (Or.inr rfl)⟩

/-! ## Claims about initialization, services, and parameter altering -/

/-- C7: in the sequential initialization pass, a numeric evaluation failure
of one variable keeps that variable at its prior/default value, the pass
continues so that every variable j still receives exactly the result of
its own step on the sequentially-updated state, no exception propagates
(model_init is total), and the initialized flag is set to true at the
end. -/
theorem C7_init_swallows_failure (vars : List Andes.IVar) (i : ℕ)
    (f : List ℚ → Option ℚ)
    (hi : i < vars.length)
    (hf : (vars.getD i default).initf = some f)
    (hfail : f (Andes.stateAt vars i) = none) :
    (Andes.model_init vars).1[i]? = some (vars.getD i default).prior ∧
    (Andes.model_init vars).2 = true ∧
    ∀ j, (Andes.model_init vars).1[j]? =
      (Andes.initStep vars (Andes.stateAt vars j) j)[j]? := by
  have hstep : Andes.initStep vars (Andes.stateAt vars i) i =
      Andes.stateAt vars i := by
    unfold Andes.initStep
    simp only [hf, hfail]
  refine ⟨?_, rfl, ?_⟩
  · have h1 : (Andes.model_init vars).1[i]? =
        (Andes.initStep vars (Andes.stateAt vars i) i)[i]? :=
      Andes.stateAt_stable vars vars.length i hi
    rw [h1, hstep, Andes.stateAt_untouched vars i i (Nat.le_refl i),
      List.getElem?_map, List.getElem?_eq_getElem hi]
    have hgd : vars.getD i default = vars[i] := List.getD_eq_getElem vars default hi
    rw [hgd]
    rfl
  · intro j
    by_cases hj : j < vars.length
    · exact Andes.stateAt_stable vars vars.length j hj
    · have hlen1 : (Andes.model_init vars).1.length = vars.length :=
        Andes.stateAt_length vars vars.length
      have hlen2 : (Andes.initStep vars (Andes.stateAt vars j) j).length =
          vars.length := by
        rw [Andes.initStep_length, Andes.stateAt_length]
      rw [List.getElem?_eq_none (by omega), List.getElem?_eq_none (by omega)]

/-- Witness for C7: with a first variable whose initializer fails and a
second whose initializer yields 5, the first keeps its prior value 1 and
the model is still marked initialized. -/
theorem C7_init_swallows_failure_witness :
    (Andes.model_init Andes.c7vars).1[0]? = some 1 ∧
    (Andes.model_init Andes.c7vars).2 = true :=
  ⟨(C7_init_swallows_failure Andes.c7vars 0 (fun _ => none)
      (by decide) rfl rfl).1,
   (C7_init_swallows_failure Andes.c7vars 0 (fun _ => none)
      (by decide) rfl rfl).2.1⟩

/-- C9: after service resolution runs for a model with devices (and in
use), a service whose evaluated value is a scalar is stored as the array
of n copies of that scalar (a vector of length n with every component
equal to the scalar), while a service whose evaluation already yields an
array keeps it unchanged. -/
theorem C9_scalar_broadcast (n : ℕ) (inUse : Bool)
    (old computed : List Andes.NumVal)
    (hn : 0 < n) (hu : inUse = true) :
    ∀ i : ℕ, (∀ c, computed[i]? = some (Andes.NumVal.scalar c) →
        (Andes.s_update n inUse old computed)[i]? =
          some (Andes.NumVal.arr (List.replicate n c)) ∧
        (List.replicate n c).length = n ∧
        ∀ x ∈ List.replicate n c, x = c) ∧
      (∀ l, computed[i]? = some (Andes.NumVal.arr l) →
        (Andes.s_update n inUse old computed)[i]? =
          some (Andes.NumVal.arr l)) := by
  have hcond : ¬ (n = 0 ∨ inUse = false) := by
    rintro (h | h)
    · omega
    · rw [hu] at h
      exact Bool.noConfusion h
  intro i
  constructor
  · intro c hc
    refine ⟨?_, List.length_replicate n c,
      fun x hx => List.eq_of_mem_replicate hx⟩
    unfold Andes.s_update
    rw [if_neg hcond,
      List.getElem?_map (Andes.broadcastValue n) computed i, hc]
    rfl
  · intro l hl
    unfold Andes.s_update
    rw [if_neg hcond,
      List.getElem?_map (Andes.broadcastValue n) computed i, hl]
    rfl

/-- Witness for C9: with two devices, a scalar service value 3 becomes the
array of two copies of 3 while an array value stays unchanged. -/
theorem C9_scalar_broadcast_witness :
    (Andes.s_update 2 true []
        [Andes.NumVal.scalar 3, Andes.NumVal.arr [4]])[0]? =
      some (Andes.NumVal.arr [3, 3]) ∧
    (Andes.s_update 2 true []
        [Andes.NumVal.scalar 3, Andes.NumVal.arr [4]])[1]? =
      some (Andes.NumVal.arr [4]) :=
  ⟨((C9_scalar_broadcast 2 true []
      [Andes.NumVal.scalar 3, Andes.NumVal.arr [4]]
      (by norm_num) rfl 0).1 3 rfl).1,
   (C9_scalar_broadcast 2 true []
      [Andes.NumVal.scalar 3, Andes.NumVal.arr [4]]
      (by norm_num) rfl 1).2 [4] rfl⟩

/-- C10: alter(src, idx, value) replaces the raw input vin of parameter src
only at position idx2uid(idx), recomputes the working value v of that
parameter for every device as vin * pu_coeff (so the other devices are
refreshed from their unchanged raw inputs), and leaves every other
parameter and every variable array of the model unchanged. -/
theorem C10_alter_frame (m : Andes.AlterModel) (src : String) (idx : ℕ)
    (value : ℚ) (u : ℕ) (p : Andes.NumParamV) (m2 : Andes.AlterModel)
    (hu : Andes.dictGetNat m.uid idx = some u)
    (hp : Andes.dictGet m.params src = some p)
    (hm2 : Andes.alter m src idx value = some m2) :
    (∃ p2, Andes.dictGet m2.params src = some p2 ∧
      p2.vin = p.vin.set u value ∧
      (∀ j, j ≠ u → p2.vin[j]? = p.vin[j]?) ∧
      (u < p.vin.length → p2.vin[u]? = some value) ∧
      p2.pu_coeff = p.pu_coeff ∧
      p2.v = List.zipWith (fun a b => a * b) p2.vin p2.pu_coeff) ∧
    (∀ s, s ≠ src → Andes.dictGet m2.params s = Andes.dictGet m.params s) ∧
    m2.varvals = m.varvals ∧
    m2.uid = m.uid := by
  unfold Andes.alter at hm2
  simp only [hu, hp, Option.some.injEq] at hm2
  subst hm2
  constructor
  · refine ⟨{ vin := p.vin.set u value,
              pu_coeff := p.pu_coeff,
              v := List.zipWith (fun a b => a * b)
                (p.vin.set u value) p.pu_coeff }, ?_, rfl, ?_, ?_, rfl, rfl⟩
    · exact (Andes.dictGet_map_update m.params src _).2 (by rw [hp]; rfl)
    · intro j hj
      exact List.getElem?_set_ne (fun hc => hj hc.symm)
    · intro hlt
      exact List.getElem?_set_self hlt
  · exact ⟨fun s hs => (Andes.dictGet_map_update m.params src _).1 s hs,
      rfl, rfl⟩

/-- Witness for C10: altering parameter R of the device with idx 8 to 3 on
the concrete two-device model leaves the variable arrays, the uid map and
the other parameter X untouched. -/
theorem C10_alter_frame_witness :
    Andes.c10after.varvals = Andes.c10m.varvals ∧
    Andes.c10after.uid = Andes.c10m.uid ∧
    Andes.dictGet Andes.c10after.params "X" =
      Andes.dictGet Andes.c10m.params "X" := by
  have halter : Andes.alter Andes.c10m "R" 8 3 = some Andes.c10after := by
    simp only [Andes.alter, Andes.c10m, Andes.c10after, Andes.dictGetNat,
      Andes.dictGet]
    norm_num
    decide
  have h := C10_alter_frame Andes.c10m "R" 8 3 1
    ⟨[1, 2], [10, 10], [10, 20]⟩ Andes.c10after rfl rfl halter
  exact ⟨h.2.2.1, h.2.2.2, h.2.1 "X" (by decide)⟩

/-! ## Claims about symbol generation -/

/-- C1 as claimed is false: the set of names visible to equation strings is
not equal to the union of parameter, variable, service and config names
plus dae_t, because the flag names exported by discrete components are
also visible.  On a model with one discrete flag, the flag is a visible
symbol outside the claimed union, and an expression whose free symbols
contain it compiles without an Unknown-Symbol error. -/
theorem C1_counterexample :
    ("lim_zi" ∈ Andes.generate_symbols_keys Andes.c1disc ∧
      "lim_zi" ∉ Andes.claimed_keys Andes.c1disc) ∧
    Andes.check_expr_symbols Andes.c1disc "eq of v1" ["lim_zi"] =
      Except.ok () :=
  ⟨⟨by decide, by decide⟩, rfl⟩

/-- C1 amended: the set of names visible to equation strings equals the
claimed union together with the flag names of discrete components; an
expression all of whose free symbols lie in the visible set compiles
without error, and an expression with a free symbol outside the visible
set fails with an error naming the expression and an offending symbol. -/
theorem C1_symbol_visibility (m : Andes.SymModel) (ename : String)
    (free : List String) :
    (∀ s, s ∈ Andes.generate_symbols_keys m ↔
      s ∈ Andes.claimed_keys m ∨ s ∈ m.discrete_flag_names) ∧
    ((∀ s ∈ free, s ∈ Andes.generate_symbols_keys m) →
      Andes.check_expr_symbols m ename free = Except.ok ()) ∧
    ((∃ s ∈ free, s ∉ Andes.generate_symbols_keys m) →
      ∃ s2 , s2 ∈ free ∧ s2 ∉ Andes.generate_symbols_keys m ∧
        Andes.check_expr_symbols m ename free =
          Except.error (ename, s2)) := by
  refine ⟨?_, ?_, ?_⟩
  · intro s
    simp only [Andes.generate_symbols_keys, Andes.claimed_keys,
      Andes.all_params_names, List.mem_append]
    tauto
  · intro hall
    have hnone : free.find?
        (fun s => decide (s ∉ Andes.generate_symbols_keys m)) = none := by
      rw [List.find?_eq_none]
      intro x hx
      simp [hall x hx]
    unfold Andes.check_expr_symbols
    rw [hnone]
  · rintro ⟨s, hs, hout⟩
    have hsome : (free.find?
        (fun s => decide (s ∉ Andes.generate_symbols_keys m))).isSome := by
      rw [List.find?_isSome]
      exact ⟨s, hs, by simpa using hout⟩
    obtain ⟨s2, hs2⟩ := Option.isSome_iff_exists.mp hsome
    refine ⟨s2, List.mem_of_find?_eq_some hs2, ?_, ?_⟩
    · simpa using List.find?_some hs2
    · unfold Andes.check_expr_symbols
      rw [hs2]

/-- Witness for C1 amended: on the discrete-flag model, the visible set
decomposes as claimed plus the flag, an expression over u and v1
compiles, and an expression over a truly unknown name fails naming it. -/
theorem C1_symbol_visibility_witness :
    ("lim_zi" ∈ Andes.generate_symbols_keys Andes.c1disc ↔
      "lim_zi" ∈ Andes.claimed_keys Andes.c1disc ∨
      "lim_zi" ∈ Andes.c1disc.discrete_flag_names) ∧
    Andes.check_expr_symbols Andes.c1disc "eq of v1" ["u", "v1", "dae_t"] =
      Except.ok () ∧
    (∃ s2, s2 ∈ ["w9"] ∧
      s2 ∉ Andes.generate_symbols_keys Andes.c1disc ∧
      Andes.check_expr_symbols Andes.c1disc "eq of v1" ["w9"] =
        Except.error ("eq of v1", s2)) :=
  ⟨(C1_symbol_visibility Andes.c1disc "eq of v1" []).1 "lim_zi",
   (C1_symbol_visibility Andes.c1disc "eq of v1" ["u", "v1", "dae_t"]).2.1
     (by decide),
   (C1_symbol_visibility Andes.c1disc "eq of v1" ["w9"]).2.2
     ⟨"w9", by decide, by decide⟩⟩

namespace Andes

theorem mem_blockTriplets {eqs : List Expr} {vars : List String}
    {ecode s : String} {nStates e v : ℕ} :
    (s, e, v) ∈ blockTriplets eqs vars ecode nStates ↔
      (e < eqs.length ∧ v < vars.length ∧
       ediff (eqs.getD e (Expr.const 0)) (vars.getD v "") ≠ Expr.const 0 ∧
       s = ecode ++ (if v < nStates then "x" else "y")) := by
  unfold blockTriplets
  simp only [List.mem_flatMap, List.mem_filterMap, List.mem_range]
  constructor
  · rintro ⟨e2, he2, v2, hv2, hsome⟩
    by_cases hz :
        ediff (eqs.getD e2 (Expr.const 0)) (vars.getD v2 "") = Expr.const 0
    · rw [if_pos hz] at hsome
      cases hsome
    · rw [if_neg hz] at hsome
      simp only [Option.some.injEq, Prod.mk.injEq] at hsome
      obtain ⟨hs, he, hv⟩ := hsome
      subst he
      subst hv
      exact ⟨he2, hv2, hz, hs.symm⟩
  · rintro ⟨he, hv, hz, hs⟩
    refine ⟨e, he, v, hv, ?_⟩
    rw [if_neg hz, hs]

theorem mem_diagTriplets {jm : JacModel} {s : String} {e v : ℕ} :
    (s, e, v) ∈ diagTriplets jm ↔
      ∃ p, p ∈ jm.algebs_int ∧ p.2 ≠ 0 ∧ s = "gyc" ∧
        e = jm.algebs.indexOf p.1 ∧ v = (JacModel.vars jm).indexOf p.1 := by
  unfold diagTriplets
  simp only [List.mem_filterMap]
  constructor
  · rintro ⟨p, hp, hsome⟩
    by_cases hz : p.2 = 0
    · rw [if_pos hz] at hsome
      cases hsome
    · rw [if_neg hz] at hsome
      simp only [Option.some.injEq, Prod.mk.injEq] at hsome
      exact ⟨p, hp, hz, hsome.1.symm, hsome.2.1.symm, hsome.2.2.symm⟩
  · rintro ⟨p, hp, hz, hs, he, hv⟩
    refine ⟨p, hp, ?_⟩
    rw [if_neg hz, hs, he, hv]

theorem block_name_of_mem {eqs : List Expr} {vars : List String}
    {ecode s : String} {nStates e v : ℕ}
    (h : (s, e, v) ∈ blockTriplets eqs vars ecode nStates) :
    s = ecode ++ "x" ∨ s = ecode ++ "y" := by
  rcases mem_blockTriplets.mp h with ⟨-, -, -, hs⟩
  by_cases hvn : v < nStates
  · left
    rw [hs, if_pos hvn]
  · right
    rw [hs, if_neg hvn]

theorem mem_generate_jacobians {jm : JacModel} {s : String} {e v : ℕ} :
    (s, e, v) ∈ generate_jacobians jm ↔
      ((s, e, v) ∈
          blockTriplets jm.f_eqs (JacModel.vars jm) "f" jm.states.length ∨
       (s, e, v) ∈
          blockTriplets jm.g_eqs (JacModel.vars jm) "g" jm.states.length ∨
       (s, e, v) ∈ diagTriplets jm) := by
  unfold generate_jacobians
  simp [List.mem_append, or_assoc]

theorem vars_length (jm : JacModel) :
    (JacModel.vars jm).length = jm.states.length + jm.algebs.length := by
  simp [JacModel.vars]

end Andes

/-! ## The claim about Jacobian generation -/

/-- C2: after symbolic processing, the (row, col) pairs appended as
Jacobian triplets are exactly the (equation index, variable index) pairs
whose symbolic partial derivative is structurally nonzero, classified into
the four blocks fx, fy, gx, gy by equation kind and variable kind, plus
only the configured nonzero diag_eps diagonal entries of the
algebraic-by-algebraic block (appended to gyc); a pair whose derivative is
structurally zero never produces a triplet in the differentiated blocks,
and no other block names occur. -/
theorem C2_jacobian_structural_nonzeros (jm : Andes.JacModel)
    (hf : jm.f_eqs.length = jm.states.length)
    (hg : jm.g_eqs.length = jm.algebs.length) :
    ∀ e v : ℕ,
      (("fx", e, v) ∈ Andes.generate_jacobians jm ↔
        e < jm.states.length ∧ v < jm.states.length ∧
        Andes.ediff (jm.f_eqs.getD e (Andes.Expr.const 0))
          ((Andes.JacModel.vars jm).getD v "") ≠ Andes.Expr.const 0) ∧
      (("fy", e, v) ∈ Andes.generate_jacobians jm ↔
        e < jm.states.length ∧ jm.states.length ≤ v ∧
        v < (Andes.JacModel.vars jm).length ∧
        Andes.ediff (jm.f_eqs.getD e (Andes.Expr.const 0))
          ((Andes.JacModel.vars jm).getD v "") ≠ Andes.Expr.const 0) ∧
      (("gx", e, v) ∈ Andes.generate_jacobians jm ↔
        e < jm.algebs.length ∧ v < jm.states.length ∧
        Andes.ediff (jm.g_eqs.getD e (Andes.Expr.const 0))
          ((Andes.JacModel.vars jm).getD v "") ≠ Andes.Expr.const 0) ∧
      (("gy", e, v) ∈ Andes.generate_jacobians jm ↔
        e < jm.algebs.length ∧ jm.states.length ≤ v ∧
        v < (Andes.JacModel.vars jm).length ∧
        Andes.ediff (jm.g_eqs.getD e (Andes.Expr.const 0))
          ((Andes.JacModel.vars jm).getD v "") ≠ Andes.Expr.const 0) ∧
      (("gyc", e, v) ∈ Andes.generate_jacobians jm ↔
        ∃ p, p ∈ jm.algebs_int ∧ p.2 ≠ 0 ∧
          e = jm.algebs.indexOf p.1 ∧
          v = (Andes.JacModel.vars jm).indexOf p.1) ∧
      (∀ s : String, (s, e, v) ∈ Andes.generate_jacobians jm →
        s = "fx" ∨ s = "fy" ∨ s = "gx" ∨ s = "gy" ∨ s = "gyc") := by
  have hvl := Andes.vars_length jm
  intro e v
  refine ⟨?_, ?_, ?_, ?_, ?_, ?_⟩
  · rw [Andes.mem_generate_jacobians]
    constructor
    · rintro (hmem | hmem | hmem)
      · rcases Andes.mem_blockTriplets.mp hmem with ⟨he, hv, hz, hs⟩
        by_cases hvn : v < jm.states.length
        · exact ⟨hf ▸ he, hvn, hz⟩
        · rw [if_neg hvn] at hs
          exact absurd hs (by decide)
      · rcases Andes.block_name_of_mem hmem with hs | hs <;>
          exact absurd hs (by decide)
      · rcases Andes.mem_diagTriplets.mp hmem with ⟨p, -, -, hs, -⟩
        exact absurd hs (by decide)
    · rintro ⟨he, hv, hz⟩
      left
      refine Andes.mem_blockTriplets.mpr ⟨by omega, by omega, hz, ?_⟩
      rw [if_pos hv]
      decide
  · rw [Andes.mem_generate_jacobians]
    constructor
    · rintro (hmem | hmem | hmem)
      · rcases Andes.mem_blockTriplets.mp hmem with ⟨he, hv, hz, hs⟩
        by_cases hvn : v < jm.states.length
        · rw [if_pos hvn] at hs
          exact absurd hs (by decide)
        · exact ⟨hf ▸ he, by omega, hv, hz⟩
      · rcases Andes.block_name_of_mem hmem with hs | hs <;>
          exact absurd hs (by decide)
      · rcases Andes.mem_diagTriplets.mp hmem with ⟨p, -, -, hs, -⟩
        exact absurd hs (by decide)
    · rintro ⟨he, hle, hv, hz⟩
      left
      refine Andes.mem_blockTriplets.mpr ⟨by omega, hv, hz, ?_⟩
      rw [if_neg (by omega)]
      decide
  · rw [Andes.mem_generate_jacobians]
    constructor
    · rintro (hmem | hmem | hmem)
      · rcases Andes.block_name_of_mem hmem with hs | hs <;>
          exact absurd hs (by decide)
      · rcases Andes.mem_blockTriplets.mp hmem with ⟨he, hv, hz, hs⟩
        by_cases hvn : v < jm.states.length
        · exact ⟨hg ▸ he, hvn, hz⟩
        · rw [if_neg hvn] at hs
          exact absurd hs (by decide)
      · rcases Andes.mem_diagTriplets.mp hmem with ⟨p, -, -, hs, -⟩
        exact absurd hs (by decide)
    · rintro ⟨he, hv, hz⟩
      right
      left
      refine Andes.mem_blockTriplets.mpr ⟨by omega, by omega, hz, ?_⟩
      rw [if_pos hv]
      decide
  · rw [Andes.mem_generate_jacobians]
    constructor
    · rintro (hmem | hmem | hmem)
      · rcases Andes.block_name_of_mem hmem with hs | hs <;>
          exact absurd hs (by decide)
      · rcases Andes.mem_blockTriplets.mp hmem with ⟨he, hv, hz, hs⟩
        by_cases hvn : v < jm.states.length
        · rw [if_pos hvn] at hs
          exact absurd hs (by decide)
        · exact ⟨hg ▸ he, by omega, hv, hz⟩
      · rcases Andes.mem_diagTriplets.mp hmem with ⟨p, -, -, hs, -⟩
        exact absurd hs (by decide)
    · rintro ⟨he, hle, hv, hz⟩
      right
      left
      refine Andes.mem_blockTriplets.mpr ⟨by omega, hv, hz, ?_⟩
      rw [if_neg (by omega)]
      decide
  · rw [Andes.mem_generate_jacobians]
    constructor
    · rintro (hmem | hmem | hmem)
      · rcases Andes.block_name_of_mem hmem with hs | hs <;>
          exact absurd hs (by decide)
      · rcases Andes.block_name_of_mem hmem with hs | hs <;>
          exact absurd hs (by decide)
      · rcases Andes.mem_diagTriplets.mp hmem with ⟨p, hp, hz, hs, he, hv⟩
        exact ⟨p, hp, hz, he, hv⟩
    · rintro ⟨p, hp, hz, he, hv⟩
      right
      right
      exact Andes.mem_diagTriplets.mpr ⟨p, hp, hz, rfl, he, hv⟩
  · intro s hmem
    rcases Andes.mem_generate_jacobians.mp hmem with hmem | hmem | hmem
    · rcases Andes.block_name_of_mem hmem with hs | hs
      · exact Or.inl (hs.trans (by decide))
      · exact Or.inr (Or.inl (hs.trans (by decide)))
    · rcases Andes.block_name_of_mem hmem with hs | hs
      · exact Or.inr (Or.inr (Or.inl (hs.trans (by decide))))
      · exact Or.inr (Or.inr (Or.inr (Or.inl (hs.trans (by decide)))))
    · rcases Andes.mem_diagTriplets.mp hmem with ⟨p, -, -, hs, -⟩
      exact Or.inr (Or.inr (Or.inr (Or.inr hs)))

/-- Witness for C2: on the one-state, one-algebraic model, the derivative
of the differential residual y1 with respect to the algebraic variable is
structurally nonzero and yields the fy triplet (0, 1); its derivative with
respect to the state is structurally zero and yields no fx triplet; the
diag_eps of y1 yields the gyc triplet (0, 1). -/
theorem C2_jacobian_structural_nonzeros_witness :
    ("fy", 0, 1) ∈ Andes.generate_jacobians Andes.c2jm ∧
    ("fx", 0, 0) ∉ Andes.generate_jacobians Andes.c2jm ∧
    ("gyc", 0, 1) ∈ Andes.generate_jacobians Andes.c2jm := by
  have h01 := C2_jacobian_structural_nonzeros Andes.c2jm rfl rfl 0 1
  have h00 := C2_jacobian_structural_nonzeros Andes.c2jm rfl rfl 0 0
  refine ⟨h01.2.1.mpr ⟨by decide, by decide, by decide, by decide⟩, ?_,
    h01.2.2.2.2.1.mpr ⟨("y1", 1), by decide, by decide, by decide, by decide⟩⟩
  intro hmem
  exact (h00.1.mp hmem).2.2 (by decide)
